import Mathlib

/-!
Verification of the timer-zero-enhanced repository.

Strings are modelled as lists of characters, JavaScript numbers carrying
time values as integers, and a JavaScript NaN as the value none of an
Option type.  Impure id generation is modelled by passing the generated
id as an explicit argument.
-/

namespace Chart

/-! Embedding of src/src/components/TimelineChart.tsx. -/

inductive MarkAction where
  | start
  | pause
deriving DecidableEq, Repr

/-- A mark of a sub channel: the action and the elapsed time of the head
channel at the moment the mark was recorded. -/
structure SubChannelMark where
  action : MarkAction
  headTimeMs : Int
deriving DecidableEq, Repr

structure TimelineInterval where
  startMs : Int
  endMs : Int
deriving DecidableEq, Repr

/-- Body of the for loop of calculateIntervals: the state is the interval
list built so far together with the open start value (null is none). -/
def calcStep (st : List TimelineInterval × Option Int) (mark : SubChannelMark) :
    List TimelineInterval × Option Int :=
  match mark.action with
  | .start => (st.1, some mark.headTimeMs)
  | .pause =>
    match st.2 with
    | some s => (st.1 ++ [⟨s, mark.headTimeMs⟩], none)
    | none => st

/-- Code after the loop of calculateIntervals: if currently running and a
start is still open, add the interval from that start to the current head
time. -/
def finishIntervals (currentlyRunning : Bool) (headElapsedMs : Int)
    (st : List TimelineInterval × Option Int) : List TimelineInterval :=
  match currentlyRunning, st.2 with
  | true, some s => st.1 ++ [⟨s, headElapsedMs⟩]
  | _, _ => st.1

/-- calculateIntervals from TimelineChart.tsx, lines 16 to 35. -/
def calculateIntervals (marks : List SubChannelMark) (currentlyRunning : Bool)
    (headElapsedMs : Int) : List TimelineInterval :=
  finishIntervals currentlyRunning headElapsedMs (marks.foldl calcStep ([], none))

/-- Modelled from the spec: the recursive scan described for
deriveIntervals in section 4.2, carrying the open start marker. -/
def deriveGo (currentlyRunning : Bool) (headElapsedMsNow : Int) :
    List SubChannelMark → Option Int → List TimelineInterval
  | [], openStart =>
    match currentlyRunning, openStart with
    | true, some s => [⟨s, headElapsedMsNow⟩]
    | _, _ => []
  | m :: rest, openStart =>
    match m.action with
    | .start => deriveGo currentlyRunning headElapsedMsNow rest (some m.headTimeMs)
    | .pause =>
      match openStart with
      | some s => ⟨s, m.headTimeMs⟩ :: deriveGo currentlyRunning headElapsedMsNow rest none
      | none => deriveGo currentlyRunning headElapsedMsNow rest none

/-- Modelled from the spec: deriveIntervals of section 4.2, a left to
right scan of the marks starting with no open start. -/
def deriveIntervals (marks : List SubChannelMark) (currentlyRunning : Bool)
    (headElapsedMsNow : Int) : List TimelineInterval :=
  deriveGo currentlyRunning headElapsedMsNow marks none

/-- The boundary values of an interval list, in display order. -/
def flattenIntervals : List TimelineInterval → List Int
  | [] => []
  | i :: rest => i.startMs :: i.endMs :: flattenIntervals rest

def toggleAction : MarkAction → MarkAction
  | .start => .pause
  | .pause => .start

/-- True when the list of marks starts with the given action and the
actions alternate from there on. -/
def altFrom : MarkAction → List SubChannelMark → Bool
  | _, [] => true
  | a, m :: rest => m.action == a && altFrom (toggleAction a) rest

/-- True when the first mark is a start and no two consecutive marks have
the same action. -/
def alternatingFromStart (ms : List SubChannelMark) : Bool :=
  altFrom .start ms

/-- Number of completed start to pause pairs in a mark sequence: pauses
that close an open start, scanning left to right.  The flag records
whether a start is currently open. -/
def completedPairsGo : Bool → List SubChannelMark → Nat
  | _, [] => 0
  | isOpen, m :: rest =>
    match m.action with
    | .start => completedPairsGo true rest
    | .pause => (if isOpen then 1 else 0) + completedPairsGo false rest

def completedPairs (ms : List SubChannelMark) : Nat :=
  completedPairsGo false ms

/-- The action of the last mark of the list, if any. -/
def lastAction : List SubChannelMark → Option MarkAction
  | [] => none
  | m :: rest =>
    match lastAction rest with
    | none => some m.action
    | some a => some a

/-- True when a start is still open after scanning the marks: either the
last mark is a start, or the list is empty and a start was open coming
in. -/
def endsOpen (ms : List SubChannelMark) (o : Option Int) : Bool :=
  match lastAction ms with
  | some a => a == .start
  | none => o.isSome

end Chart

namespace Stopwatch

/-!
The channel hierarchy manager lives in the hook module useStopwatch, which
is referenced by the provided pages and components but is not among the
provided source files.  The definitions of this namespace are therefore
modelled from the spec, sections 3, 4.1 and 4.3.
-/

/-- Modelled from the spec: the Timer state of section 3 (the module
useStopwatch holding it is missing from the provided sources).  The id and
name fields play no role in the timing semantics and are kept as plain
strings. -/
structure Timer where
  id : String
  name : String
  running : Bool
  accumulatedMs : Int
  startedAt : Option Int
deriving DecidableEq, Repr

/-- Modelled from the spec: a sub channel is a Timer plus an ordered mark
list. -/
structure SubChannel where
  timer : Timer
  marks : List Chart.SubChannelMark
deriving DecidableEq, Repr

/-- Modelled from the spec: a head channel is a Timer plus an ordered
sub channel list. -/
structure HeadChannel where
  timer : Timer
  subChannels : List SubChannel
deriving DecidableEq, Repr

/-- Modelled from the spec: getElapsedMs of section 4.1, accumulatedMs
plus the open delta while running.  startedAt is meaningful only while
running; an absent startedAt contributes a zero delta. -/
def getElapsedMs (now : Int) (t : Timer) : Int :=
  t.accumulatedMs + (if t.running then now - t.startedAt.getD now else 0)

/-- Modelled from the spec: the running half of toggle in section 4.1,
banking the open delta and freezing the timer. -/
def pauseTimer (now : Int) (t : Timer) : Timer :=
  { t with
    running := false
    accumulatedMs := t.accumulatedMs + (now - t.startedAt.getD now)
    startedAt := none }

/-- Modelled from the spec: the stopped half of toggle in section 4.1. -/
def startTimer (now : Int) (t : Timer) : Timer :=
  { t with running := true, startedAt := some now }

/-- Modelled from the spec: toggleHeadChannel of section 4.3.  Pausing the
head also pauses every currently running sub channel, recording a pause
mark for each at the elapsed time of the head at the moment of pause;
starting the head leaves the sub channels alone. -/
def toggleHeadChannel (now : Int) (head : HeadChannel) : HeadChannel :=
  if head.timer.running then
    let headElapsed := getElapsedMs now head.timer
    { head with
      timer := pauseTimer now head.timer,
      subChannels := head.subChannels.map fun s =>
        if s.timer.running then
          { s with
            timer := pauseTimer now s.timer
            marks := s.marks ++ [⟨.pause, headElapsed⟩] }
        else s }
  else
    { head with timer := startTimer now head.timer }

/-- The per sub channel effect claimed for a head pause at head elapsed
time headElapsed: a running sub becomes not running with exactly one pause
mark appended carrying headElapsed, a stopped sub is unchanged. -/
def subPausedBy (headElapsed : Int) (s s' : SubChannel) : Prop :=
  (s.timer.running = true →
    s'.timer.running = false ∧ s'.marks = s.marks ++ [⟨.pause, headElapsed⟩]) ∧
  (s.timer.running = false → s' = s)

end Stopwatch

namespace Builder

/-!
Embedding of the duration based timeline builder of
src/src/components/ImportTimeline.tsx.  A JavaScript object spread with an
updates object whose fields may be absent is modelled by a structure of
Option fields merged with getD.  The result of parseInt on the text of an
input is modelled as an Option Int, none standing for NaN.
-/

structure TimelineInterval where
  id : String
  startMin : Int
  endMin : Int
deriving DecidableEq, Repr

structure ImportSubChannel where
  id : String
  name : String
  intervals : List TimelineInterval
  expanded : Bool
deriving DecidableEq, Repr

structure ImportHeadChannel where
  id : String
  name : String
  totalMinutes : Int
  subChannels : List ImportSubChannel
  expanded : Bool
deriving DecidableEq, Repr

/-- Fields of an updates object for an interval; absent fields keep the
old value on merge. -/
structure IntervalUpdates where
  id : Option String := none
  startMin : Option Int := none
  endMin : Option Int := none
deriving Repr

/-- The object spread of an interval with an updates object. -/
def applyIntervalUpdates (i : TimelineInterval) (u : IntervalUpdates) :
    TimelineInterval :=
  ⟨u.id.getD i.id, u.startMin.getD i.startMin, u.endMin.getD i.endMin⟩

structure SubChannelUpdates where
  id : Option String := none
  name : Option String := none
  intervals : Option (List TimelineInterval) := none
  expanded : Option Bool := none
deriving Repr

def applySubChannelUpdates (s : ImportSubChannel) (u : SubChannelUpdates) :
    ImportSubChannel :=
  ⟨u.id.getD s.id, u.name.getD s.name, u.intervals.getD s.intervals,
    u.expanded.getD s.expanded⟩

structure HeadChannelUpdates where
  id : Option String := none
  name : Option String := none
  totalMinutes : Option Int := none
  subChannels : Option (List ImportSubChannel) := none
  expanded : Option Bool := none
deriving Repr

def applyHeadChannelUpdates (h : ImportHeadChannel) (u : HeadChannelUpdates) :
    ImportHeadChannel :=
  ⟨u.id.getD h.id, u.name.getD h.name, u.totalMinutes.getD h.totalMinutes,
    u.subChannels.getD h.subChannels, u.expanded.getD h.expanded⟩

/-- JavaScript x or-else d applied to a parseInt result: NaN (none) and 0
both give the default. -/
def jsOr (x : Option Int) (d : Int) : Int :=
  match x with
  | none => d
  | some n => if n = 0 then d else n

/-- updateHeadChannel from ImportTimeline.tsx. -/
def updateHeadChannel (headId : String) (u : HeadChannelUpdates)
    (heads : List ImportHeadChannel) : List ImportHeadChannel :=
  heads.map fun h => if h.id = headId then applyHeadChannelUpdates h u else h

/-- addSubChannel from ImportTimeline.tsx; the impure generateId call is
passed in as newId. -/
def addSubChannel (newId : String) (headId : String)
    (heads : List ImportHeadChannel) : List ImportHeadChannel :=
  heads.map fun h =>
    if h.id ≠ headId then h
    else { h with subChannels := h.subChannels ++
      [⟨newId, "Sub " ++ toString (h.subChannels.length + 1), [], true⟩] }

/-- deleteSubChannel from ImportTimeline.tsx. -/
def deleteSubChannel (headId subId : String)
    (heads : List ImportHeadChannel) : List ImportHeadChannel :=
  heads.map fun h =>
    if h.id ≠ headId then h
    else { h with subChannels := h.subChannels.filter fun s => s.id != subId }

/-- updateSubChannel from ImportTimeline.tsx. -/
def updateSubChannel (headId subId : String) (u : SubChannelUpdates)
    (heads : List ImportHeadChannel) : List ImportHeadChannel :=
  heads.map fun h =>
    if h.id ≠ headId then h
    else { h with subChannels := h.subChannels.map fun s =>
      if s.id = subId then applySubChannelUpdates s u else s }

/-- End of the last interval of a sub channel, or 0 when it has none, as
computed in addInterval. -/
def lastEndMin (s : ImportSubChannel) : Int :=
  match s.intervals.getLast? with
  | some i => i.endMin
  | none => 0

/-- addInterval from ImportTimeline.tsx; the impure generateId call is
passed in as newId. -/
def addInterval (newId : String) (headId subId : String)
    (heads : List ImportHeadChannel) : List ImportHeadChannel :=
  heads.map fun h =>
    if h.id ≠ headId then h
    else { h with subChannels := h.subChannels.map fun s =>
      if s.id ≠ subId then s
      else { s with intervals := s.intervals ++
        [⟨newId, lastEndMin s, min (lastEndMin s + 5) h.totalMinutes⟩] } }

/-- deleteInterval from ImportTimeline.tsx. -/
def deleteInterval (headId subId intervalId : String)
    (heads : List ImportHeadChannel) : List ImportHeadChannel :=
  heads.map fun h =>
    if h.id ≠ headId then h
    else { h with subChannels := h.subChannels.map fun s =>
      if s.id ≠ subId then s
      else { s with intervals := s.intervals.filter fun i => i.id != intervalId } }

/-- updateInterval from ImportTimeline.tsx. -/
def updateInterval (headId subId intervalId : String) (u : IntervalUpdates)
    (heads : List ImportHeadChannel) : List ImportHeadChannel :=
  heads.map fun h =>
    if h.id ≠ headId then h
    else { h with subChannels := h.subChannels.map fun s =>
      if s.id ≠ subId then s
      else { s with intervals := s.intervals.map fun i =>
        if i.id = intervalId then applyIntervalUpdates i u else i } }

/-- The totalMinutes input handler: Math.max(1, parseInt(value) or 1). -/
def totalMinutesInput (raw : Option Int) : Int :=
  max 1 (jsOr raw 1)

/-- The startMin input handler of an interval row: clamps the parsed value
to at least 0 and at most endMin - 1 of the rendered interval. -/
def startMinClamp (raw : Option Int) (i : TimelineInterval) : Int :=
  max 0 (min (jsOr raw 0) (i.endMin - 1))

/-- The endMin input handler of an interval row: clamps the parsed value
to at least startMin + 1 of the rendered interval and at most the
totalMinutes of its head channel. -/
def endMinClamp (raw : Option Int) (i : TimelineInterval) (totalMinutes : Int) : Int :=
  max (i.startMin + 1) (min (jsOr raw 1) totalMinutes)

/-- The startMin edit flow: the input handler reads the rendered interval
and head and calls updateInterval with the clamped value. -/
def editStartMin (headId subId intervalId : String) (raw : Option Int)
    (heads : List ImportHeadChannel) : List ImportHeadChannel :=
  heads.map fun h =>
    if h.id ≠ headId then h
    else { h with subChannels := h.subChannels.map fun s =>
      if s.id ≠ subId then s
      else { s with intervals := s.intervals.map fun i =>
        if i.id = intervalId then { i with startMin := startMinClamp raw i } else i } }

/-- The endMin edit flow, analogous to editStartMin. -/
def editEndMin (headId subId intervalId : String) (raw : Option Int)
    (heads : List ImportHeadChannel) : List ImportHeadChannel :=
  heads.map fun h =>
    if h.id ≠ headId then h
    else { h with subChannels := h.subChannels.map fun s =>
      if s.id ≠ subId then s
      else { s with intervals := s.intervals.map fun i =>
        if i.id = intervalId then { i with endMin := endMinClamp raw i h.totalMinutes } else i } }

/-- The totalMinutes edit flow: updateHeadChannel with the clamped input. -/
def editTotalMinutes (headId : String) (raw : Option Int)
    (heads : List ImportHeadChannel) : List ImportHeadChannel :=
  updateHeadChannel headId { totalMinutes := some (totalMinutesInput raw) } heads

/-- Structural validity of one head channel: every interval of every sub
channel starts at 0 or later, is at least one minute wide, and ends no
later than the total duration of the head. -/
@[reducible] def ValidHead (h : ImportHeadChannel) : Prop :=
  ∀ s ∈ h.subChannels, ∀ i ∈ s.intervals,
    0 ≤ i.startMin ∧ i.startMin + 1 ≤ i.endMin ∧ i.endMin ≤ h.totalMinutes

@[reducible] def ValidHeads (heads : List ImportHeadChannel) : Prop :=
  ∀ h ∈ heads, ValidHead h

/-- A small example collection used in concrete checks. -/
def demoHeads : List ImportHeadChannel :=
  [⟨"h1", "Head 1", 60, [⟨"s1", "Sub 1", [⟨"i1", 10, 50⟩], true⟩], true⟩]

end Builder

namespace OClock

/-!
Embedding of the clock based builders: the conversion helpers shared by
src/src/components/ImportTimelineOClock.tsx (lines 34 to 45) and the
cutoff variant provided as the unnamed source file part_000 (lines 36 to
51), and the cutoff summary of part_000.  Strings are lists of characters
and a JavaScript NaN is none.
-/

/-- JavaScript Number applied to a split segment.  The time inputs of the
builder produce digit segments; an empty segment gives 0 as Number does,
and a segment with a character that is not a decimal digit is modelled as
NaN (none); fractional or signed numeric syntax is outside the modelled
domain and also maps to none. -/
def jsNumber (cs : List Char) : Option Nat :=
  if cs.all (fun c => c.isDigit) then
    some (cs.foldl (fun acc c => acc * 10 + (c.toNat - 48)) 0)
  else none

/-- JavaScript split on the colon character, over strings as char lists. -/
def splitOnColon : List Char → List (List Char)
  | [] => [[]]
  | c :: rest =>
    if c = ':' then [] :: splitOnColon rest
    else
      match splitOnColon rest with
      | seg :: segs => (c :: seg) :: segs
      | [] => [[c]]

/-- timeToMinutes: destructures the first two segments of the split and
returns hours times 60 plus minutes; a missing minutes segment or a non
numeric segment gives NaN (none). -/
def timeToMinutes (time : List Char) : Option Nat :=
  match splitOnColon time with
  | hs :: ms :: _ =>
    match jsNumber hs, jsNumber ms with
    | some h, some m => some (h * 60 + m)
    | _, _ => none
  | _ => none

/-- The two digit zero padding of padStart. -/
def padStart2 (cs : List Char) : List Char :=
  List.replicate (2 - cs.length) '0' ++ cs

/-- minutesToTime: hours is floor of mins over 60 modulo 24, minutes is
mins modulo 60, both zero padded to two digits and joined by a colon. -/
def minutesToTime (mins : Nat) : List Char :=
  padStart2 (Nat.toDigits 10 (mins / 60 % 24)) ++
    ':' :: padStart2 (Nat.toDigits 10 (mins % 60))

structure TimelineInterval where
  id : String
  startTime : List Char
  endTime : List Char
deriving DecidableEq, Repr

/-- A sub channel of the cutoff builder.  The source declares isCutoff as
an optional boolean and tests it by truthiness, so an absent flag behaves
as false and is modelled as false. -/
structure ImportSubChannel where
  id : String
  name : String
  intervals : List TimelineInterval
  expanded : Bool
  isCutoff : Bool
deriving DecidableEq, Repr

structure ImportHeadChannel where
  id : String
  name : String
  startTime : List Char
  endTime : List Char
  subChannels : List ImportSubChannel
  expanded : Bool
deriving DecidableEq, Repr

/-- getDurationMinutes from part_000: the difference of the two parsed
times floored at 0; a NaN operand propagates. -/
def getDurationMinutes (startTime endTime : List Char) : Option Int :=
  match timeToMinutes startTime, timeToMinutes endTime with
  | some s, some e => some (max 0 ((e : Int) - (s : Int)))
  | _, _ => none

/-- JavaScript addition, NaN propagating. -/
def jsAdd (a b : Option Int) : Option Int :=
  match a, b with
  | some x, some y => some (x + y)
  | _, _ => none

/-- JavaScript subtraction, NaN propagating. -/
def jsSub (a b : Option Int) : Option Int :=
  match a, b with
  | some x, some y => some (x - y)
  | _, _ => none

/-- The inner reduce of getHeadSummary and of the visualization: total
duration of the intervals of one sub channel. -/
def intervalsDurMins (s : ImportSubChannel) : Option Int :=
  s.intervals.foldl
    (fun acc i => jsAdd acc (getDurationMinutes i.startTime i.endTime)) (some 0)

/-- The outer reduce over the sub channels flagged isCutoff. -/
def cutoffMinsOf (head : ImportHeadChannel) : Option Int :=
  (head.subChannels.filter fun s => s.isCutoff).foldl
    (fun acc s => jsAdd acc (intervalsDurMins s)) (some 0)

structure HeadSummary where
  totalMins : Option Int
  cutoffMins : Option Int
  netMins : Option Int
deriving Repr

/-- getHeadSummary from part_000, lines 479 to 486. -/
def getHeadSummary (head : ImportHeadChannel) : HeadSummary :=
  let totalMins := getDurationMinutes head.startTime head.endTime
  let cutoffMins := cutoffMinsOf head
  ⟨totalMins, cutoffMins, jsSub totalMins cutoffMins⟩

/-- totalDurationMins of the visualization in part_000: the difference of
the parsed head times, not floored; the visualization renders nothing
unless it is positive. -/
def vizTotalDurationMins (head : ImportHeadChannel) : Option Int :=
  match timeToMinutes head.startTime, timeToMinutes head.endTime with
  | some s, some e => some ((e : Int) - s)
  | _, _ => none

/-- netOperationalMins of the visualization in part_000, lines 81 to 90. -/
def vizNetOperationalMins (head : ImportHeadChannel) : Option Int :=
  jsSub (vizTotalDurationMins head) (cutoffMinsOf head)

/-- Minutes value of a parsed time, used by the spec side expressions
under the hypothesis that every time of the head parses. -/
def minsOf (t : List Char) : Int :=
  ((timeToMinutes t).getD 0 : Nat)

/-- The total claimed by the spec: duration from startTime to endTime,
floored at 0. -/
def specTotalMins (head : ImportHeadChannel) : Int :=
  max 0 (minsOf head.endTime - minsOf head.startTime)

/-- The cutoff sum claimed by the spec: over every sub channel flagged
isCutoff, the sum of the durations of all its intervals, each floored at
0. -/
def specCutoffMins (head : ImportHeadChannel) : Int :=
  ((head.subChannels.filter fun s => s.isCutoff).map fun s =>
    (s.intervals.map fun i => max 0 (minsOf i.endTime - minsOf i.startTime)).sum).sum

/-- Every time field of the head and of the intervals of its sub channels
parses. -/
@[reducible] def wfHead (head : ImportHeadChannel) : Prop :=
  (timeToMinutes head.startTime).isSome = true ∧
  (timeToMinutes head.endTime).isSome = true ∧
  ∀ s ∈ head.subChannels, ∀ i ∈ s.intervals,
    (timeToMinutes i.startTime).isSome = true ∧
      (timeToMinutes i.endTime).isSome = true

/-- A small example head channel used in concrete checks: a seven hour
shift with one cutoff sub channel and one ordinary one. -/
def demoHead : ImportHeadChannel :=
  ⟨"h1", "Head 1", "07:00".toList, "14:00".toList,
    [⟨"c1", "Cutoff 1", [⟨"i1", "08:00".toList, "08:30".toList⟩], true, true⟩,
      ⟨"s1", "Sub 1", [⟨"i2", "09:00".toList, "10:00".toList⟩], true, false⟩],
    true⟩

end OClock

/-! # Theorems -/

theorem chart_foldl_calcStep_deriveGo (r : Bool) (now : Int) :
    ∀ (ms : List Chart.SubChannelMark) (acc : List Chart.TimelineInterval) (o : Option Int),
      Chart.finishIntervals r now (ms.foldl Chart.calcStep (acc, o)) =
        acc ++ Chart.deriveGo r now ms o := by
  intro ms
  induction ms with
  | nil =>
    intro acc o
    cases o with
    | none =>
      cases r <;> simp [Chart.finishIntervals, Chart.deriveGo]
    | some s =>
      cases r <;> simp [Chart.finishIntervals, Chart.deriveGo]
  | cons m rest ih =>
    intro acc o
    cases hm : m.action with
    | start =>
      simp only [List.foldl_cons, Chart.calcStep, hm, Chart.deriveGo]
      exact ih acc (some m.headTimeMs)
    | pause =>
      cases o with
      | none =>
        simp only [List.foldl_cons, Chart.calcStep, hm, Chart.deriveGo]
        exact ih acc none
      | some s =>
        simp only [List.foldl_cons, Chart.calcStep, hm, Chart.deriveGo]
        exact (ih (acc ++ [⟨s, m.headTimeMs⟩]) none).trans (by rw [List.append_assoc])

/-- Claim C1: for every list of marks, every currentlyRunning flag and every
head elapsed value, calculateIntervals returns exactly the list produced by
the left to right scan described in the spec: a start mark sets the open
start, a pause mark seen while a start is open appends the closed interval
and clears it, and a trailing open start yields a final interval ending at
the head elapsed value exactly when currentlyRunning is true, and is dropped
otherwise. -/
theorem C1_calculateIntervals_eq_deriveIntervals
    (marks : List Chart.SubChannelMark) (currentlyRunning : Bool) (headElapsedMs : Int) :
    Chart.calculateIntervals marks currentlyRunning headElapsedMs =
      Chart.deriveIntervals marks currentlyRunning headElapsedMs := by
  have h := chart_foldl_calcStep_deriveGo currentlyRunning headElapsedMs marks [] none
  simpa [Chart.calculateIntervals, Chart.deriveIntervals] using h

theorem chart_go_lb (r : Bool) (now : Int) :
    ∀ (ms : List Chart.SubChannelMark) (o : Option Int) (lb : Int),
      (∀ m ∈ ms, lb ≤ m.headTimeMs) →
      (∀ s, o = some s → lb ≤ s) →
      (r = true → lb ≤ now) →
      ∀ y ∈ Chart.flattenIntervals (Chart.deriveGo r now ms o), lb ≤ y := by
  intro ms
  induction ms with
  | nil =>
    intro o lb hms ho hnow y hy
    cases r with
    | false =>
      cases o <;> simp [Chart.deriveGo, Chart.flattenIntervals] at hy
    | true =>
      cases o with
      | none => simp [Chart.deriveGo, Chart.flattenIntervals] at hy
      | some s =>
        simp [Chart.deriveGo, Chart.flattenIntervals] at hy
        rcases hy with rfl | rfl
        · exact ho y rfl
        · exact hnow rfl
  | cons m rest ih =>
    intro o lb hms ho hnow y hy
    cases hm : m.action with
    | start =>
      have he : Chart.deriveGo r now (m :: rest) o =
          Chart.deriveGo r now rest (some m.headTimeMs) := by
        simp [Chart.deriveGo, hm]
      rw [he] at hy
      refine ih (some m.headTimeMs) lb (fun m' hm' => hms m' (List.mem_cons_of_mem _ hm'))
        ?_ hnow y hy
      intro s hs
      cases hs
      exact hms m (List.mem_cons_self _ _)
    | pause =>
      cases o with
      | none =>
        have he : Chart.deriveGo r now (m :: rest) none =
            Chart.deriveGo r now rest none := by
          simp [Chart.deriveGo, hm]
        rw [he] at hy
        exact ih none lb (fun m' hm' => hms m' (List.mem_cons_of_mem _ hm'))
          (fun s hs => by cases hs) hnow y hy
      | some s =>
        have he : Chart.deriveGo r now (m :: rest) (some s) =
            ⟨s, m.headTimeMs⟩ :: Chart.deriveGo r now rest none := by
          simp [Chart.deriveGo, hm]
        rw [he] at hy
        simp only [Chart.flattenIntervals, List.mem_cons] at hy
        rcases hy with rfl | rfl | hy
        · exact ho y rfl
        · exact hms m (List.mem_cons_self _ _)
        · exact ih none lb (fun m' hm' => hms m' (List.mem_cons_of_mem _ hm'))
            (fun s' hs' => by cases hs') hnow y hy

theorem chart_go_chain (r : Bool) (now : Int) :
    ∀ (ms : List Chart.SubChannelMark) (o : Option Int),
      ms.Pairwise (fun a b => a.headTimeMs ≤ b.headTimeMs) →
      (∀ m ∈ ms, r = true → m.headTimeMs ≤ now) →
      (∀ s, o = some s → (∀ m ∈ ms, s ≤ m.headTimeMs) ∧ (r = true → s ≤ now)) →
      (Chart.flattenIntervals (Chart.deriveGo r now ms o)).Chain' (· ≤ ·) := by
  intro ms
  induction ms with
  | nil =>
    intro o hp hnow ho
    cases r with
    | false =>
      cases o <;> simp [Chart.deriveGo, Chart.flattenIntervals]
    | true =>
      cases o with
      | none => simp [Chart.deriveGo, Chart.flattenIntervals]
      | some s =>
        have hs := (ho s rfl).2 rfl
        simpa [Chart.deriveGo, Chart.flattenIntervals] using hs
  | cons m rest ih =>
    intro o hp hnow ho
    obtain ⟨hm_all, hp_rest⟩ := List.pairwise_cons.mp hp
    cases hm : m.action with
    | start =>
      have he : Chart.deriveGo r now (m :: rest) o =
          Chart.deriveGo r now rest (some m.headTimeMs) := by
        simp [Chart.deriveGo, hm]
      rw [he]
      refine ih (some m.headTimeMs) hp_rest
        (fun m' hm' => hnow m' (List.mem_cons_of_mem _ hm')) ?_
      intro s hs
      cases hs
      exact ⟨hm_all, hnow m (List.mem_cons_self _ _)⟩
    | pause =>
      cases o with
      | none =>
        have he : Chart.deriveGo r now (m :: rest) none =
            Chart.deriveGo r now rest none := by
          simp [Chart.deriveGo, hm]
        rw [he]
        exact ih none hp_rest (fun m' hm' => hnow m' (List.mem_cons_of_mem _ hm'))
          (fun s hs => by cases hs)
      | some s =>
        have he : Chart.deriveGo r now (m :: rest) (some s) =
            ⟨s, m.headTimeMs⟩ :: Chart.deriveGo r now rest none := by
          simp [Chart.deriveGo, hm]
        rw [he]
        show (s :: m.headTimeMs ::
          Chart.flattenIntervals (Chart.deriveGo r now rest none)).Chain' (· ≤ ·)
        refine List.chain'_cons.mpr ⟨(ho s rfl).1 m (List.mem_cons_self _ _), ?_⟩
        refine List.chain'_cons'.mpr ⟨?_, ?_⟩
        · intro y hy
          exact chart_go_lb r now rest none m.headTimeMs hm_all
            (fun s' hs' => by cases hs')
            (fun hr => hnow m (List.mem_cons_self _ _) hr) y (List.mem_of_mem_head? hy)
        · exact ih none hp_rest (fun m' hm' => hnow m' (List.mem_cons_of_mem _ hm'))
            (fun s' hs' => by cases hs')

theorem chart_flat_chain :
    ∀ l : List Chart.TimelineInterval,
      (Chart.flattenIntervals l).Chain' (· ≤ ·) →
      (∀ i ∈ l, i.startMs ≤ i.endMs) ∧ l.Chain' (fun a b => a.endMs ≤ b.startMs) := by
  intro l
  induction l with
  | nil => intro _; exact ⟨by simp, List.chain'_nil⟩
  | cons i rest ih =>
    intro h
    have h1 := List.chain'_cons.mp h
    have h2 := List.chain'_cons'.mp h1.2
    have hrest := ih h2.2
    refine ⟨?_, ?_⟩
    · intro j hj
      rcases List.mem_cons.mp hj with rfl | hj
      · exact h1.1
      · exact hrest.1 j hj
    · refine List.chain'_cons'.mpr ⟨?_, hrest.2⟩
      intro j hj
      cases rest with
      | nil => simp at hj
      | cons k rest2 =>
        have hk : k = j := by simpa using hj
        subst hk
        exact h2.1 k.startMs rfl

/-- Claim C2, counterexample: the mark list start at 100, pause at 50
alternates and begins with a start, yet calculateIntervals returns an
interval whose endMs is strictly below its startMs, because nothing in the
code orders the recorded head times. -/
theorem C2_counterexample :
    Chart.alternatingFromStart [⟨.start, 100⟩, ⟨.pause, 50⟩] = true ∧
      ¬ ∀ i ∈ Chart.calculateIntervals [⟨.start, 100⟩, ⟨.pause, 50⟩] false 0,
          i.startMs ≤ i.endMs := by
  exact ⟨by decide, by decide⟩

/-- Claim C2, amended: for every mark list that alternates beginning with a
start, whose recorded head times are non decreasing in list order, and every
head elapsed value that, when currentlyRunning is true, is at least every
recorded head time, the intervals returned by calculateIntervals satisfy
endMs at least startMs, and are chronologically ordered and pairwise non
overlapping (the end of each interval is at most the start of the next). -/
theorem C2_intervals_ordered (marks : List Chart.SubChannelMark) (r : Bool)
    (headElapsedMs : Int)
    (halt : Chart.alternatingFromStart marks = true)
    (hmono : marks.Chain' (fun a b => a.headTimeMs ≤ b.headTimeMs))
    (hnow : r = true → ∀ m ∈ marks, m.headTimeMs ≤ headElapsedMs) :
    (∀ i ∈ Chart.calculateIntervals marks r headElapsedMs, i.startMs ≤ i.endMs) ∧
      (Chart.calculateIntervals marks r headElapsedMs).Chain'
        (fun a b => a.endMs ≤ b.startMs) := by
  have he : Chart.calculateIntervals marks r headElapsedMs =
      Chart.deriveGo r headElapsedMs marks none := by
    have h := chart_foldl_calcStep_deriveGo r headElapsedMs marks [] none
    simpa [Chart.calculateIntervals] using h
  have hp : marks.Pairwise (fun a b => a.headTimeMs ≤ b.headTimeMs) := by
    letI : IsTrans Chart.SubChannelMark (fun a b => a.headTimeMs ≤ b.headTimeMs) :=
      ⟨fun _ _ _ hab hbc => le_trans hab hbc⟩
    exact List.chain'_iff_pairwise.mp hmono
  have hchain := chart_go_chain r headElapsedMs marks none hp
    (fun m hm hr => hnow hr m hm) (fun s hs => by cases hs)
  rw [he]
  exact chart_flat_chain _ hchain

theorem C2_intervals_ordered_witness :
    Chart.alternatingFromStart [⟨.start, 10⟩, ⟨.pause, 20⟩, ⟨.start, 30⟩] = true ∧
      ([⟨.start, 10⟩, ⟨.pause, 20⟩, ⟨.start, 30⟩] : List Chart.SubChannelMark).Chain'
        (fun a b => a.headTimeMs ≤ b.headTimeMs) ∧
      ((∀ i ∈ Chart.calculateIntervals [⟨.start, 10⟩, ⟨.pause, 20⟩, ⟨.start, 30⟩] true 50,
          i.startMs ≤ i.endMs) ∧
        (Chart.calculateIntervals [⟨.start, 10⟩, ⟨.pause, 20⟩, ⟨.start, 30⟩] true 50).Chain'
          (fun a b => a.endMs ≤ b.startMs)) :=
  ⟨by decide, by simp [List.chain'_cons],
    C2_intervals_ordered [⟨.start, 10⟩, ⟨.pause, 20⟩, ⟨.start, 30⟩] true 50
      (by decide) (by simp [List.chain'_cons]) (by decide)⟩

theorem chart_altFrom_props :
    ∀ (ms : List Chart.SubChannelMark) (a : Chart.MarkAction),
      Chart.altFrom a ms = true →
      ms.Chain' (fun x y => x.action ≠ y.action) ∧
        ∀ m, ms.head? = some m → m.action = a := by
  intro ms
  induction ms with
  | nil =>
    intro a _
    exact ⟨List.chain'_nil, by intro m hm; cases hm⟩
  | cons m rest ih =>
    intro a h
    rw [Chart.altFrom, Bool.and_eq_true, beq_iff_eq] at h
    obtain ⟨h1, h2⟩ := h
    have hre := ih (Chart.toggleAction a) h2
    refine ⟨?_, ?_⟩
    · refine List.chain'_cons'.mpr ⟨?_, hre.1⟩
      intro y hy
      have hy' : y.action = Chart.toggleAction a := hre.2 y hy
      rw [h1, hy']
      cases a <;> simp [Chart.toggleAction]
    · intro m' hm'
      have hmm : m = m' := by simpa using hm'
      subst hmm
      exact h1

theorem chart_go_count (r : Bool) (now : Int) :
    ∀ (ms : List Chart.SubChannelMark) (o : Option Int),
      ms.Chain' (fun x y => x.action ≠ y.action) →
      (∀ m, ms.head? = some m → (m.action = .pause ↔ o.isSome = true)) →
      (Chart.deriveGo r now ms o).length =
        Chart.completedPairsGo o.isSome ms +
          (if r = true ∧ Chart.endsOpen ms o = true then 1 else 0) := by
  intro ms
  induction ms with
  | nil =>
    intro o hc hh
    cases r <;> cases o <;>
      simp [Chart.deriveGo, Chart.completedPairsGo, Chart.endsOpen, Chart.lastAction]
  | cons m rest ih =>
    intro o hc hh
    obtain ⟨hhead, hcrest⟩ := List.chain'_cons'.mp hc
    cases hm : m.action with
    | start =>
      have he : Chart.deriveGo r now (m :: rest) o =
          Chart.deriveGo r now rest (some m.headTimeMs) := by
        simp [Chart.deriveGo, hm]
      have hcp : Chart.completedPairsGo o.isSome (m :: rest) =
          Chart.completedPairsGo true rest := by
        simp [Chart.completedPairsGo, hm]
      have heo : Chart.endsOpen (m :: rest) o =
          Chart.endsOpen rest (some m.headTimeMs) := by
        cases hl : Chart.lastAction rest with
        | none =>
          have h1 : Chart.lastAction (m :: rest) = some m.action := by
            simp [Chart.lastAction, hl]
          simp [Chart.endsOpen, h1, hl, hm]
        | some a =>
          have h1 : Chart.lastAction (m :: rest) = some a := by
            simp [Chart.lastAction, hl]
          simp [Chart.endsOpen, h1, hl]
      have hh' : ∀ m', rest.head? = some m' →
          (m'.action = .pause ↔ (some m.headTimeMs : Option Int).isSome = true) := by
        intro m' hm'
        have hne := hhead m' hm'
        rw [hm] at hne
        cases hma : m'.action with
        | start => exact absurd hma.symm hne
        | pause => simp
      rw [he, hcp, heo]
      exact ih (some m.headTimeMs) hcrest hh'
    | pause =>
      have ho : o.isSome = true := by
        exact (hh m rfl).mp hm
      obtain ⟨s, rfl⟩ := Option.isSome_iff_exists.mp ho
      have he : Chart.deriveGo r now (m :: rest) (some s) =
          ⟨s, m.headTimeMs⟩ :: Chart.deriveGo r now rest none := by
        simp [Chart.deriveGo, hm]
      have hcp : Chart.completedPairsGo (some s : Option Int).isSome (m :: rest) =
          1 + Chart.completedPairsGo false rest := by
        simp [Chart.completedPairsGo, hm]
      have heo : Chart.endsOpen (m :: rest) (some s) =
          Chart.endsOpen rest (none : Option Int) := by
        cases hl : Chart.lastAction rest with
        | none =>
          have h1 : Chart.lastAction (m :: rest) = some m.action := by
            simp [Chart.lastAction, hl]
          simp [Chart.endsOpen, h1, hl, hm]
        | some a =>
          have h1 : Chart.lastAction (m :: rest) = some a := by
            simp [Chart.lastAction, hl]
          simp [Chart.endsOpen, h1, hl]
      have hh' : ∀ m', rest.head? = some m' →
          (m'.action = .pause ↔ (none : Option Int).isSome = true) := by
        intro m' hm'
        have hne := hhead m' hm'
        rw [hm] at hne
        cases hma : m'.action with
        | start => simp
        | pause => exact absurd hma.symm hne
      rw [he, List.length_cons, hcp, heo,
        ih (none : Option Int) hcrest hh']
      simp only [Option.isSome_none]
      omega

/-- Claim C3: for every mark sequence that alternates beginning with a
start, whose last mark is an unmatched start exactly when currentlyRunning
is true, the number of intervals returned by calculateIntervals equals the
number of completed start to pause pairs in the sequence, plus one more if
currentlyRunning is true. -/
theorem C3_interval_count (marks : List Chart.SubChannelMark) (r : Bool)
    (headElapsedMs : Int)
    (halt : Chart.alternatingFromStart marks = true)
    (hlast : Chart.lastAction marks = some .start ↔ r = true) :
    (Chart.calculateIntervals marks r headElapsedMs).length =
      Chart.completedPairs marks + (if r = true then 1 else 0) := by
  have he : Chart.calculateIntervals marks r headElapsedMs =
      Chart.deriveGo r headElapsedMs marks none := by
    have h := chart_foldl_calcStep_deriveGo r headElapsedMs marks [] none
    simpa [Chart.calculateIntervals] using h
  have hprops := chart_altFrom_props marks .start halt
  have hh : ∀ m, marks.head? = some m →
      (m.action = .pause ↔ (none : Option Int).isSome = true) := by
    intro m hm
    have := hprops.2 m hm
    rw [this]
    simp
  have hcount := chart_go_count r headElapsedMs marks none hprops.1 hh
  rw [he, hcount]
  have hif : (if r = true ∧ Chart.endsOpen marks none = true then 1 else 0) =
      (if r = true then 1 else 0) := by
    by_cases hr : r = true
    · have hstart : Chart.lastAction marks = some .start := hlast.mpr hr
      simp [hr, Chart.endsOpen, hstart]
    · simp [hr]
  rw [hif]
  rfl

theorem C3_interval_count_witness :
    Chart.alternatingFromStart [⟨.start, 1⟩, ⟨.pause, 2⟩, ⟨.start, 3⟩] = true ∧
      (Chart.lastAction [⟨.start, 1⟩, ⟨.pause, 2⟩, ⟨.start, 3⟩] = some .start ↔
        (true : Bool) = true) ∧
      (Chart.calculateIntervals [⟨.start, 1⟩, ⟨.pause, 2⟩, ⟨.start, 3⟩] true 9).length =
        Chart.completedPairs [⟨.start, 1⟩, ⟨.pause, 2⟩, ⟨.start, 3⟩] +
          (if (true : Bool) = true then 1 else 0) :=
  ⟨by decide, by decide,
    C3_interval_count [⟨.start, 1⟩, ⟨.pause, 2⟩, ⟨.start, 3⟩] true 9 (by decide) (by decide)⟩

/-- Claim C9: calculateIntervals is deterministic; two calls with equal
inputs return equal interval lists.  The source function only reads its
marks argument, which the pure embedding reflects: no call mutates the
mark list. -/
theorem C9_calculateIntervals_deterministic
    (m m' : List Chart.SubChannelMark) (r r' : Bool) (h h' : Int)
    (hm : m = m') (hr : r = r') (hh : h = h') :
    Chart.calculateIntervals m r h = Chart.calculateIntervals m' r' h' := by
  subst hm
  subst hr
  subst hh
  rfl

theorem C9_calculateIntervals_deterministic_witness :
    ([⟨.start, 0⟩] : List Chart.SubChannelMark) = [⟨.start, 0⟩] ∧
      Chart.calculateIntervals [⟨.start, 0⟩] true 7 =
        Chart.calculateIntervals [⟨.start, 0⟩] true 7 :=
  ⟨rfl, C9_calculateIntervals_deterministic [⟨.start, 0⟩] [⟨.start, 0⟩] true true 7 7
    rfl rfl rfl⟩

/-- Claim C4: when toggleHeadChannel pauses a running head channel, every
running sub channel beneath it transitions to not running and gets exactly
one pause mark appended whose headTimeMs is the elapsed time of the head at
the moment of the pause, the same value for all of them; sub channels that
were not running are unchanged; and toggling the head from not running to
running starts no sub channel.  The implementing module useStopwatch is not
among the provided sources, so this is settled against the model built from
the spec. -/
theorem C4_toggleHeadChannel_cascade (now : Int) (head : Stopwatch.HeadChannel) :
    (head.timer.running = true →
      List.Forall₂ (Stopwatch.subPausedBy (Stopwatch.getElapsedMs now head.timer))
        head.subChannels (Stopwatch.toggleHeadChannel now head).subChannels) ∧
    (head.timer.running = false →
      (Stopwatch.toggleHeadChannel now head).subChannels = head.subChannels) := by
  constructor
  · intro hr
    have he : (Stopwatch.toggleHeadChannel now head).subChannels =
        head.subChannels.map fun s =>
          if s.timer.running then
            { s with
              timer := Stopwatch.pauseTimer now s.timer
              marks := s.marks ++ [⟨.pause, Stopwatch.getElapsedMs now head.timer⟩] }
          else s := by
      simp [Stopwatch.toggleHeadChannel, hr]
    rw [he]
    rw [List.forall₂_map_right_iff]
    rw [List.forall₂_same]
    intro s _
    cases hsr : s.timer.running with
    | true =>
      constructor
      · intro _
        simp [hsr, Stopwatch.pauseTimer]
      · intro hfalse
        rw [hsr] at hfalse
        cases hfalse
    | false =>
      constructor
      · intro htrue
        rw [hsr] at htrue
        cases htrue
      · intro _
        simp [hsr]
  · intro hr
    simp [Stopwatch.toggleHeadChannel, hr]

theorem C4_toggleHeadChannel_cascade_witness :
    (Stopwatch.HeadChannel.timer
        ⟨⟨"h", "Head 1", true, 100, some 40⟩,
          [⟨⟨"s1", "Sub 1", true, 5, some 60⟩, [⟨.start, 30⟩]⟩,
            ⟨⟨"s2", "Sub 2", false, 9, none⟩, []⟩,
            ⟨⟨"s3", "Sub 3", true, 0, some 90⟩, []⟩]⟩).running = true ∧
      List.Forall₂
        (Stopwatch.subPausedBy (Stopwatch.getElapsedMs 200
          (Stopwatch.HeadChannel.timer
            ⟨⟨"h", "Head 1", true, 100, some 40⟩,
              [⟨⟨"s1", "Sub 1", true, 5, some 60⟩, [⟨.start, 30⟩]⟩,
                ⟨⟨"s2", "Sub 2", false, 9, none⟩, []⟩,
                ⟨⟨"s3", "Sub 3", true, 0, some 90⟩, []⟩]⟩)))
        (Stopwatch.HeadChannel.subChannels
          ⟨⟨"h", "Head 1", true, 100, some 40⟩,
            [⟨⟨"s1", "Sub 1", true, 5, some 60⟩, [⟨.start, 30⟩]⟩,
              ⟨⟨"s2", "Sub 2", false, 9, none⟩, []⟩,
              ⟨⟨"s3", "Sub 3", true, 0, some 90⟩, []⟩]⟩)
        (Stopwatch.toggleHeadChannel 200
          ⟨⟨"h", "Head 1", true, 100, some 40⟩,
            [⟨⟨"s1", "Sub 1", true, 5, some 60⟩, [⟨.start, 30⟩]⟩,
              ⟨⟨"s2", "Sub 2", false, 9, none⟩, []⟩,
              ⟨⟨"s3", "Sub 3", true, 0, some 90⟩, []⟩]⟩).subChannels :=
  ⟨rfl,
    (C4_toggleHeadChannel_cascade 200
      ⟨⟨"h", "Head 1", true, 100, some 40⟩,
        [⟨⟨"s1", "Sub 1", true, 5, some 60⟩, [⟨.start, 30⟩]⟩,
          ⟨⟨"s2", "Sub 2", false, 9, none⟩, []⟩,
          ⟨⟨"s3", "Sub 3", true, 0, some 90⟩, []⟩]⟩).1 rfl⟩

/-- Claim C5: the endMin input handler stores
max (startMin + 1) (min v totalMinutes) where v is the parsed integer,
defaulting to 1 when parsing fails; in particular an attempted endMin of 5
with startMin 10 on a 60 minute head stores 11.  updateInterval then writes
this value verbatim into the targeted interval. -/
theorem C5_endMin_clamp (raw : Option Int) (i : Builder.TimelineInterval)
    (totalMinutes : Int) (hs : 0 ≤ i.startMin) :
    Builder.endMinClamp raw i totalMinutes =
      max (i.startMin + 1) (min (raw.getD 1) totalMinutes) ∧
    Builder.endMinClamp (some 5) ⟨"i1", 10, 30⟩ 60 = 11 := by
  constructor
  · cases raw with
    | none => rfl
    | some n =>
      by_cases hn : n = 0
      · subst hn
        simp only [Builder.endMinClamp, Builder.jsOr, if_pos rfl, Option.getD_some]
        omega
      · simp [Builder.endMinClamp, Builder.jsOr, hn]
  · decide

theorem C5_endMin_clamp_witness :
    (0 : Int) ≤ (Builder.TimelineInterval.mk "i1" 10 30).startMin ∧
      (Builder.endMinClamp (some 5) ⟨"i1", 10, 30⟩ 60 =
        max ((Builder.TimelineInterval.mk "i1" 10 30).startMin + 1)
          (min ((some (5 : Int)).getD 1) 60) ∧
        Builder.endMinClamp (some 5) ⟨"i1", 10, 30⟩ 60 = 11) :=
  ⟨by decide, C5_endMin_clamp (some 5) ⟨"i1", 10, 30⟩ 60 (by decide)⟩

theorem list_map_eq_self {α : Type} {l : List α} {f : α → α}
    (h : ∀ x ∈ l, f x = x) : l.map f = l := by
  induction l with
  | nil => rfl
  | cons a l ih =>
    rw [List.map_cons, h a (List.mem_cons_self _ _),
      ih fun x hx => h x (List.mem_cons_of_mem _ hx)]

theorem builder_valid_map (F : Builder.ImportHeadChannel → Builder.ImportHeadChannel)
    (heads : List Builder.ImportHeadChannel) (hv : Builder.ValidHeads heads)
    (hF : ∀ h ∈ heads, Builder.ValidHead h → Builder.ValidHead (F h)) :
    Builder.ValidHeads (heads.map F) := by
  intro h' hh'
  obtain ⟨h, hh, rfl⟩ := List.mem_map.mp hh'
  exact hF h hh (hv h hh)

theorem builder_lastEndMin_nonneg (s : Builder.ImportSubChannel)
    (hs : ∀ i ∈ s.intervals, 0 ≤ i.startMin ∧ i.startMin + 1 ≤ i.endMin) :
    0 ≤ Builder.lastEndMin s := by
  cases hgl : s.intervals.getLast? with
  | none => simp [Builder.lastEndMin, hgl]
  | some j =>
    have hj := hs j (List.mem_of_getLast?_eq_some hgl)
    simp only [Builder.lastEndMin, hgl]
    omega

/-- Claim C6, counterexample: a structurally valid collection becomes
invalid by editing the totalMinutes of the head down to 3, because the
totalMinutes edit does not re-clamp existing intervals; the interval from
10 to 50 then ends after the total duration of the head. -/
theorem C6_counterexample :
    Builder.ValidHeads Builder.demoHeads ∧
      ¬ Builder.ValidHeads (Builder.editTotalMinutes "h1" (some 3) Builder.demoHeads) :=
  ⟨by decide, by decide⟩

/-- Claim C6, amended: on a structurally valid collection, every startMin
edit and every endMin edit (through the clamped input handlers) preserves
validity, and addInterval preserves it provided the targeted sub channel's
last interval (0 when it has none) ends strictly before the totalMinutes of
its head.  Editing totalMinutes does not re-clamp existing intervals and can
break validity, and addInterval on a sub channel already ending at
totalMinutes creates a zero width interval. -/
theorem C6_builder_invariant (heads : List Builder.ImportHeadChannel)
    (hv : Builder.ValidHeads heads) :
    (∀ headId subId intervalId raw,
      Builder.ValidHeads (Builder.editStartMin headId subId intervalId raw heads)) ∧
    (∀ headId subId intervalId raw,
      Builder.ValidHeads (Builder.editEndMin headId subId intervalId raw heads)) ∧
    (∀ newId headId subId,
      (∀ h ∈ heads, h.id = headId → ∀ s ∈ h.subChannels, s.id = subId →
        Builder.lastEndMin s < h.totalMinutes) →
      Builder.ValidHeads (Builder.addInterval newId headId subId heads)) := by
  refine ⟨?_, ?_, ?_⟩
  · intro headId subId intervalId raw
    simp only [Builder.editStartMin]
    apply builder_valid_map _ heads hv
    intro h _ hvh
    by_cases hid : h.id ≠ headId
    · rw [if_pos hid]
      exact hvh
    · rw [if_neg hid]
      simp only [Builder.ValidHead] at hvh ⊢
      intro s' hs' i' hi'
      obtain ⟨s, hs, rfl⟩ := List.mem_map.mp hs'
      by_cases hsid : s.id ≠ subId
      · rw [if_pos hsid] at hi'
        exact hvh s hs i' hi'
      · rw [if_neg hsid] at hi'
        obtain ⟨i, hi, rfl⟩ := List.mem_map.mp hi'
        by_cases hiid : i.id = intervalId
        · rw [if_pos hiid]
          have hvi := hvh s hs i hi
          dsimp only
          simp only [Builder.startMinClamp]
          omega
        · rw [if_neg hiid]
          exact hvh s hs i hi
  · intro headId subId intervalId raw
    simp only [Builder.editEndMin]
    apply builder_valid_map _ heads hv
    intro h _ hvh
    by_cases hid : h.id ≠ headId
    · rw [if_pos hid]
      exact hvh
    · rw [if_neg hid]
      simp only [Builder.ValidHead] at hvh ⊢
      intro s' hs' i' hi'
      obtain ⟨s, hs, rfl⟩ := List.mem_map.mp hs'
      by_cases hsid : s.id ≠ subId
      · rw [if_pos hsid] at hi'
        exact hvh s hs i' hi'
      · rw [if_neg hsid] at hi'
        obtain ⟨i, hi, rfl⟩ := List.mem_map.mp hi'
        by_cases hiid : i.id = intervalId
        · rw [if_pos hiid]
          have hvi := hvh s hs i hi
          dsimp only
          simp only [Builder.endMinClamp]
          omega
        · rw [if_neg hiid]
          exact hvh s hs i hi
  · intro newId headId subId hg
    simp only [Builder.addInterval]
    apply builder_valid_map _ heads hv
    intro h hh hvh
    by_cases hid : h.id ≠ headId
    · rw [if_pos hid]
      exact hvh
    · rw [if_neg hid]
      have hid' : h.id = headId := not_not.mp hid
      simp only [Builder.ValidHead] at hvh ⊢
      intro s' hs' i' hi'
      obtain ⟨s, hs, rfl⟩ := List.mem_map.mp hs'
      by_cases hsid : s.id ≠ subId
      · rw [if_pos hsid] at hi'
        exact hvh s hs i' hi'
      · rw [if_neg hsid] at hi'
        have hsid' : s.id = subId := not_not.mp hsid
        have hguard := hg h hh hid' s hs hsid'
        rcases List.mem_append.mp hi' with hiold | hinew
        · exact hvh s hs i' hiold
        · have hieq : i' = ⟨newId, Builder.lastEndMin s,
              min (Builder.lastEndMin s + 5) h.totalMinutes⟩ := by
            simpa using hinew
          subst hieq
          have hle : 0 ≤ Builder.lastEndMin s :=
            builder_lastEndMin_nonneg s
              (fun i hi => ⟨(hvh s hs i hi).1, (hvh s hs i hi).2.1⟩)
          dsimp only
          omega

theorem C6_builder_invariant_witness :
    Builder.ValidHeads Builder.demoHeads ∧
      Builder.ValidHeads (Builder.editStartMin "h1" "s1" "i1" (some 3) Builder.demoHeads) :=
  ⟨by decide,
    (C6_builder_invariant Builder.demoHeads (by decide)).1 "h1" "s1" "i1" (some 3)⟩

/-- Claim C7: every operation of the duration based builder that targets a
head id, a sub id or an interval id that is absent from the collection
returns the collection unchanged. -/
theorem C7_missing_id_noop (heads : List Builder.ImportHeadChannel)
    (headId subId intervalId newId newId2 : String)
    (hu : Builder.HeadChannelUpdates) (su : Builder.SubChannelUpdates)
    (iu : Builder.IntervalUpdates) :
    ((∀ h ∈ heads, h.id ≠ headId) →
      Builder.updateHeadChannel headId hu heads = heads ∧
      Builder.addSubChannel newId headId heads = heads ∧
      Builder.deleteSubChannel headId subId heads = heads ∧
      Builder.updateSubChannel headId subId su heads = heads ∧
      Builder.addInterval newId2 headId subId heads = heads ∧
      Builder.deleteInterval headId subId intervalId heads = heads ∧
      Builder.updateInterval headId subId intervalId iu heads = heads) ∧
    ((∀ h ∈ heads, ∀ s ∈ h.subChannels, s.id ≠ subId) →
      Builder.deleteSubChannel headId subId heads = heads ∧
      Builder.updateSubChannel headId subId su heads = heads ∧
      Builder.addInterval newId2 headId subId heads = heads ∧
      Builder.deleteInterval headId subId intervalId heads = heads ∧
      Builder.updateInterval headId subId intervalId iu heads = heads) ∧
    ((∀ h ∈ heads, ∀ s ∈ h.subChannels, ∀ i ∈ s.intervals, i.id ≠ intervalId) →
      Builder.deleteInterval headId subId intervalId heads = heads ∧
      Builder.updateInterval headId subId intervalId iu heads = heads) := by
  refine ⟨?_, ?_, ?_⟩
  · intro hH
    refine ⟨?_, ?_, ?_, ?_, ?_, ?_, ?_⟩
    · simp only [Builder.updateHeadChannel]
      exact list_map_eq_self fun h hh => if_neg (hH h hh)
    · simp only [Builder.addSubChannel]
      exact list_map_eq_self fun h hh => if_pos (hH h hh)
    · simp only [Builder.deleteSubChannel]
      exact list_map_eq_self fun h hh => if_pos (hH h hh)
    · simp only [Builder.updateSubChannel]
      exact list_map_eq_self fun h hh => if_pos (hH h hh)
    · simp only [Builder.addInterval]
      exact list_map_eq_self fun h hh => if_pos (hH h hh)
    · simp only [Builder.deleteInterval]
      exact list_map_eq_self fun h hh => if_pos (hH h hh)
    · simp only [Builder.updateInterval]
      exact list_map_eq_self fun h hh => if_pos (hH h hh)
  · intro hH
    refine ⟨?_, ?_, ?_, ?_, ?_⟩
    · simp only [Builder.deleteSubChannel]
      apply list_map_eq_self
      intro h hh
      by_cases hid : h.id ≠ headId
      · rw [if_pos hid]
      · rw [if_neg hid]
        rw [List.filter_eq_self.mpr fun s hs => by simpa using hH h hh s hs]
    · simp only [Builder.updateSubChannel]
      apply list_map_eq_self
      intro h hh
      by_cases hid : h.id ≠ headId
      · rw [if_pos hid]
      · rw [if_neg hid]
        rw [list_map_eq_self fun s hs => if_neg (hH h hh s hs)]
    · simp only [Builder.addInterval]
      apply list_map_eq_self
      intro h hh
      by_cases hid : h.id ≠ headId
      · rw [if_pos hid]
      · rw [if_neg hid]
        rw [list_map_eq_self fun s hs => if_pos (hH h hh s hs)]
    · simp only [Builder.deleteInterval]
      apply list_map_eq_self
      intro h hh
      by_cases hid : h.id ≠ headId
      · rw [if_pos hid]
      · rw [if_neg hid]
        rw [list_map_eq_self fun s hs => if_pos (hH h hh s hs)]
    · simp only [Builder.updateInterval]
      apply list_map_eq_self
      intro h hh
      by_cases hid : h.id ≠ headId
      · rw [if_pos hid]
      · rw [if_neg hid]
        rw [list_map_eq_self fun s hs => if_pos (hH h hh s hs)]
  · intro hH
    constructor
    · simp only [Builder.deleteInterval]
      apply list_map_eq_self
      intro h hh
      by_cases hid : h.id ≠ headId
      · rw [if_pos hid]
      · rw [if_neg hid]
        have hsub : (h.subChannels.map fun s =>
            if s.id ≠ subId then s
            else { s with intervals := s.intervals.filter fun i => i.id != intervalId }) =
            h.subChannels := by
          apply list_map_eq_self
          intro s hs
          by_cases hsid : s.id ≠ subId
          · rw [if_pos hsid]
          · rw [if_neg hsid]
            rw [List.filter_eq_self.mpr fun i hi => by simpa using hH h hh s hs i hi]
        rw [hsub]
    · simp only [Builder.updateInterval]
      apply list_map_eq_self
      intro h hh
      by_cases hid : h.id ≠ headId
      · rw [if_pos hid]
      · rw [if_neg hid]
        have hsub : (h.subChannels.map fun s =>
            if s.id ≠ subId then s
            else { s with intervals := s.intervals.map fun i =>
              if i.id = intervalId then Builder.applyIntervalUpdates i iu else i }) =
            h.subChannels := by
          apply list_map_eq_self
          intro s hs
          by_cases hsid : s.id ≠ subId
          · rw [if_pos hsid]
          · rw [if_neg hsid]
            rw [list_map_eq_self fun i hi => if_neg (hH h hh s hs i hi)]
        rw [hsub]

theorem C7_missing_id_noop_witness :
    (∀ h ∈ Builder.demoHeads, h.id ≠ "hX") ∧
      (∀ h ∈ Builder.demoHeads, ∀ s ∈ h.subChannels, s.id ≠ "sX") ∧
      (∀ h ∈ Builder.demoHeads, ∀ s ∈ h.subChannels, ∀ i ∈ s.intervals, i.id ≠ "iX") ∧
      Builder.updateHeadChannel "hX" {} Builder.demoHeads = Builder.demoHeads ∧
      Builder.deleteSubChannel "hX" "sX" Builder.demoHeads = Builder.demoHeads ∧
      Builder.updateInterval "hX" "sX" "iX" {} Builder.demoHeads = Builder.demoHeads := by
  have h := C7_missing_id_noop Builder.demoHeads "hX" "sX" "iX" "n1" "n2" {} {} {}
  exact ⟨by decide, by decide, by decide,
    (h.1 (by decide)).1, (h.2.1 (by decide)).1, (h.2.2 (by decide)).2⟩

theorem oclock_split_append (xs ys : List Char) (h : ':' ∉ xs) :
    OClock.splitOnColon (xs ++ ':' :: ys) = xs :: OClock.splitOnColon ys := by
  induction xs with
  | nil => simp [OClock.splitOnColon]
  | cons c rest ih =>
    have hc : ¬ c = ':' := fun hh => h (hh ▸ List.mem_cons_self _ _)
    simp only [List.cons_append, OClock.splitOnColon, if_neg hc, List.append_eq]
    rw [ih fun hm => h (List.mem_cons_of_mem _ hm)]

theorem oclock_split_nocolon (xs : List Char) (h : ':' ∉ xs) :
    OClock.splitOnColon xs = [xs] := by
  induction xs with
  | nil => rfl
  | cons c rest ih =>
    have hc : ¬ c = ':' := fun hh => h (hh ▸ List.mem_cons_self _ _)
    simp only [OClock.splitOnColon, if_neg hc]
    rw [ih fun hm => h (List.mem_cons_of_mem _ hm)]

theorem oclock_pad_digits : ∀ n : Nat, n < 100 →
    OClock.jsNumber (OClock.padStart2 (Nat.toDigits 10 n)) = some n ∧
      ':' ∉ OClock.padStart2 (Nat.toDigits 10 n) := by decide

/-- Claim C10: converting minutes to a clock string and parsing it back is
the identity on the range of one day: for every m below 1440,
timeToMinutes applied to minutesToTime of m gives m. -/
theorem C10_time_roundtrip : ∀ m : Nat, m < 1440 →
    OClock.timeToMinutes (OClock.minutesToTime m) = some m := by
  intro m hm
  have h1 := oclock_pad_digits (m / 60 % 24) (by omega)
  have h2 := oclock_pad_digits (m % 60) (by omega)
  unfold OClock.minutesToTime OClock.timeToMinutes
  rw [oclock_split_append _ _ h1.2, oclock_split_nocolon _ h2.2]
  simp only [h1.1, h2.1]
  exact congrArg some (by omega)

theorem C10_time_roundtrip_witness :
    450 < 1440 ∧
      OClock.timeToMinutes (OClock.minutesToTime 450) = some 450 :=
  ⟨by decide, C10_time_roundtrip 450 (by decide)⟩

theorem oclock_foldl_jsAdd {α : Type} (f : α → Option Int) (g : α → Int)
    (l : List α) (h : ∀ x ∈ l, f x = some (g x)) :
    ∀ init : Int,
      l.foldl (fun acc x => OClock.jsAdd acc (f x)) (some init) =
        some (init + (l.map g).sum) := by
  induction l with
  | nil => intro init; simp
  | cons a l ih =>
    intro init
    rw [List.foldl_cons, h a (List.mem_cons_self _ _),
      show OClock.jsAdd (some init) (some (g a)) = some (init + g a) from rfl,
      ih (fun x hx => h x (List.mem_cons_of_mem _ hx)) (init + g a),
      List.map_cons, List.sum_cons]
    exact congrArg some (by ring)

set_option maxHeartbeats 2000000 in
/-- Claim C8: in the clock based builder with cutoff timers, getHeadSummary
returns totalMins as the duration from startTime to endTime floored at 0,
cutoffMins as the sum over every sub channel flagged isCutoff of the
durations of all its intervals (each floored at 0), and netMins as exactly
totalMins minus cutoffMins; and whenever the visualization renders (its
unfloored total duration is positive) its netOperationalMins is the same
net value.  The hypothesis asks that every time field of the head
parses. -/
theorem C8_net_duration (head : OClock.ImportHeadChannel) (hwf : OClock.wfHead head) :
    (OClock.getHeadSummary head).totalMins = some (OClock.specTotalMins head) ∧
    (OClock.getHeadSummary head).cutoffMins = some (OClock.specCutoffMins head) ∧
    (OClock.getHeadSummary head).netMins =
      some (OClock.specTotalMins head - OClock.specCutoffMins head) ∧
    (∀ d, OClock.vizTotalDurationMins head = some d → 0 < d →
      OClock.vizNetOperationalMins head =
        some (OClock.specTotalMins head - OClock.specCutoffMins head)) := by
  obtain ⟨hs, he, hsub⟩ := hwf
  obtain ⟨sv, hsv⟩ := Option.isSome_iff_exists.mp hs
  obtain ⟨ev, hev⟩ := Option.isSome_iff_exists.mp he
  have hminsS : OClock.minsOf head.startTime = (sv : Int) := by
    simp [OClock.minsOf, hsv]
  have hminsE : OClock.minsOf head.endTime = (ev : Int) := by
    simp [OClock.minsOf, hev]
  have h_total : OClock.getDurationMinutes head.startTime head.endTime =
      some (OClock.specTotalMins head) := by
    simp [OClock.getDurationMinutes, hsv, hev, OClock.specTotalMins, hminsS, hminsE]
  have h_inner : ∀ s ∈ head.subChannels, OClock.intervalsDurMins s =
      some ((s.intervals.map fun i =>
        max 0 (OClock.minsOf i.endTime - OClock.minsOf i.startTime)).sum) := by
    intro s hs'
    unfold OClock.intervalsDurMins
    have hfold := oclock_foldl_jsAdd
      (fun i => OClock.getDurationMinutes i.startTime i.endTime)
      (fun i => max 0 (OClock.minsOf i.endTime - OClock.minsOf i.startTime))
      s.intervals ?_ 0
    · simpa using hfold
    · intro i hi
      obtain ⟨hi1, hi2⟩ := hsub s hs' i hi
      obtain ⟨a, ha⟩ := Option.isSome_iff_exists.mp hi1
      obtain ⟨b, hb⟩ := Option.isSome_iff_exists.mp hi2
      simp [OClock.getDurationMinutes, ha, hb, OClock.minsOf]
  have h_cut : OClock.cutoffMinsOf head = some (OClock.specCutoffMins head) := by
    unfold OClock.cutoffMinsOf OClock.specCutoffMins
    have hfold := oclock_foldl_jsAdd OClock.intervalsDurMins
      (fun s => (s.intervals.map fun i =>
        max 0 (OClock.minsOf i.endTime - OClock.minsOf i.startTime)).sum)
      (head.subChannels.filter fun s => s.isCutoff)
      (fun s hs' => h_inner s (List.mem_filter.mp hs').1) 0
    simpa using hfold
  refine ⟨?_, ?_, ?_, ?_⟩
  · simpa [OClock.getHeadSummary] using h_total
  · simpa [OClock.getHeadSummary] using h_cut
  · simp [OClock.getHeadSummary, h_total, h_cut, OClock.jsSub]
  · intro d hd hdpos
    have hts : OClock.vizTotalDurationMins head = some ((ev : Int) - sv) := by
      simp [OClock.vizTotalDurationMins, hsv, hev]
    rw [hts] at hd
    have hd' : (ev : Int) - sv = d := by
      exact Option.some_injective _ hd
    have hmax : max 0 ((ev : Int) - sv) = (ev : Int) - sv := by omega
    unfold OClock.vizNetOperationalMins
    rw [hts, h_cut]
    simp only [OClock.jsSub]
    exact congrArg some (by
      simp only [OClock.specTotalMins, hminsS, hminsE, hmax])

theorem C8_net_duration_witness :
    OClock.wfHead OClock.demoHead ∧
      (OClock.getHeadSummary OClock.demoHead).netMins =
        some (OClock.specTotalMins OClock.demoHead -
          OClock.specCutoffMins OClock.demoHead) :=
  ⟨by decide, (C8_net_duration OClock.demoHead (by decide)).2.2.1⟩
